import Mathlib

/-!
# fiberresp: response descriptors and their emitter

A shallow embedding of `response.go` (package `fiberresp`).

* Descriptors are reached through pointers (`*ResponseBody`), so the embedding
  keeps an explicit heap of descriptors; a pointer is an optional address and
  `none` is the Go `nil` pointer.
* A Go `map[string]any` is either `nil` or a finite map with distinct keys; the
  finite maps are association lists with distinct keys (`AList`), and the
  `range` loop visits the entries in the order of the list.  Every ordering of
  a map is such a list, so a statement over all lists covers every iteration
  order the Go runtime may pick.
* A map is held by value inside its descriptor: two descriptors sharing one
  map are not modelled.
* Run-time panics (nil dereference, assignment to an entry of a nil map) are
  results of type `Panic`.
* The calls `ResponseWith` makes on the request context (`fiberi18n.Localize`,
  `ctx.SendStatus`, `ctx.JSON`) are recorded, in order, as a list of effects;
  the localization lookup itself is a parameter.
-/

namespace Fiberresp

/-! ## Values -/

/-- JSON values. -/
inductive JSON where
  | null
  | bool (b : Bool)
  | num (i : Int)
  | str (s : String)
  | arr (items : List JSON)
  | obj (members : List (String × JSON))

/-- Values held by a Go `any`, as far as the JSON encoder can tell them
apart: the nil interface, the scalars, and any other value that encodes (a
struct, slice or map), given by its encoding; and the values the encoder
rejects (a channel, a function, a complex number). -/
inductive Any where
  | nil
  | bool (b : Bool)
  | int (i : Int)
  | str (s : String)
  | composite (encoding : JSON)
  | unsupported

/-- A non-nil `map[string]any`: distinct string keys, each with one value. -/
abbrev Params := AList (fun _ : String => Any)

/-- A Go value of type `map[string]any`; `none` is the nil map. -/
abbrev GoMap := Option Params

/-- Go `len(m)`: the number of entries, zero for the nil map. -/
def GoMap.len : GoMap → Nat
  | none => 0
  | some m => m.entries.length

/-- Go `m[k]` read: the value stored under `k`, when there is one. -/
def GoMap.get (m : GoMap) (k : String) : Option Any :=
  match m with
  | none => none
  | some m => m.lookup k

/-- The entries a `range` loop over the map visits, in visiting order; the
nil map has none. -/
def GoMap.range : GoMap → List (String × Any)
  | none => []
  | some m => m.entries.map (fun kv => (kv.1, kv.2))

/-- The ways a builder or the emitter can abort. -/
inductive Panic where
  | nilPointerDereference
  | assignmentToEntryInNilMap
  deriving DecidableEq, Repr

/-- Go `m[k] = v`: panics on the nil map, otherwise inserts or overwrites. -/
def GoMap.assign (m : GoMap) (k : String) (v : Any) : Except Panic GoMap :=
  match m with
  | none => .error .assignmentToEntryInNilMap
  | some m => .ok (some (m.insert k v))

/-! ## The descriptor -/

/-- The struct `ResponseBody`; `Cause` is a `*string` (`none` is nil) and
`LocaleParams` a possibly nil map. -/
structure ResponseBody where
  Code : String
  Data : Any
  Message : String
  Cause : Option String
  StatusCode : Int
  LocaleParams : GoMap

/-- The constant `http.StatusBadRequest`. -/
def StatusBadRequest : Int := 400

/-- The descriptors allocated so far; an address is an index. -/
abbrev Heap := List ResponseBody

/-- A `*ResponseBody`: `none` is nil, `some a` points at cell `a`. -/
abbrev Ref := Option Nat

/-- Reading through a pointer; nil (or an address that was never allocated)
aborts. -/
def deref (h : Heap) (e : Ref) : Except Panic ResponseBody :=
  match e with
  | none => .error .nilPointerDereference
  | some a =>
    match h[a]? with
    | none => .error .nilPointerDereference
    | some d => .ok d

/-- Writing the cell a pointer points at. -/
def write (h : Heap) (e : Ref) (d : ResponseBody) : Heap :=
  match e with
  | none => h
  | some a => h.set a d

/-- Method `Error`: the message of the descriptor. -/
def Error (e : Ref) (h : Heap) : Except Panic String := do
  let d ← deref h e
  return d.Message

/-- Function `New`: allocates a descriptor and returns its address. -/
def New (code : String) (message : String) (h : Heap) : Ref × Heap :=
  (some h.length,
    h ++ [{ Code := code
            Data := Any.nil
            Message := message
            Cause := none
            StatusCode := StatusBadRequest
            LocaleParams := some ∅ }])

/-- Method `WithData`. -/
def WithData (e : Ref) (data : Any) (h : Heap) : Except Panic (Ref × Heap) := do
  let d ← deref h e
  let h1 := write h e { d with Data := data }
  return (e, h1)

/-- Method `WithStatusCode`. -/
def WithStatusCode (e : Ref) (statusCode : Int) (h : Heap) : Except Panic (Ref × Heap) := do
  let d ← deref h e
  let h1 := write h e { d with StatusCode := statusCode }
  return (e, h1)

/-- Method `WithCause`: `Cause` becomes a pointer to a copy of the argument. -/
def WithCause (e : Ref) (cause : String) (h : Heap) : Except Panic (Ref × Heap) := do
  let d ← deref h e
  let h1 := write h e { d with Cause := some cause }
  return (e, h1)

/-- Method `WithMessage`. -/
def WithMessage (e : Ref) (message : String) (h : Heap) : Except Panic (Ref × Heap) := do
  let d ← deref h e
  let h1 := write h e { d with Message := message }
  return (e, h1)

/-- The statement `e.LocaleParams[k] = v`. -/
def assignParam (e : Ref) (k : String) (v : Any) (h : Heap) : Except Panic Heap := do
  let d ← deref h e
  let m ← d.LocaleParams.assign k v
  return write h e { d with LocaleParams := m }

/-- Method `WithParams`: one assignment per entry of `params`, then `e`. -/
def WithParams (e : Ref) (params : GoMap) (h : Heap) : Except Panic (Ref × Heap) := do
  let h1 ← params.range.foldlM (fun acc kv => assignParam e kv.1 kv.2 acc) h
  return (e, h1)

/-- Method `WithParam`. -/
def WithParam (e : Ref) (key : String) (value : Any) (h : Heap) : Except Panic (Ref × Heap) := do
  let h1 ← assignParam e key value h
  return (e, h1)

/-! ## Chains of builder calls -/

/-- One call of a builder method, with its arguments. -/
inductive BuilderCall where
  | withData (data : Any)
  | withStatusCode (statusCode : Int)
  | withCause (cause : String)
  | withMessage (message : String)
  | withParams (params : GoMap)
  | withParam (key : String) (value : Any)

/-- Performing one builder call on the receiver `e`. -/
def BuilderCall.run (c : BuilderCall) (e : Ref) (h : Heap) : Except Panic (Ref × Heap) :=
  match c with
  | .withData data => WithData e data h
  | .withStatusCode statusCode => WithStatusCode e statusCode h
  | .withCause cause => WithCause e cause h
  | .withMessage message => WithMessage e message h
  | .withParams params => WithParams e params h
  | .withParam key value => WithParam e key value h

/-- A fluent chain `e.c1(..).c2(..)...`: each call is made on the pointer the
previous call returned. -/
def chain (cs : List BuilderCall) (e : Ref) (h : Heap) : Except Panic (Ref × Heap) :=
  match cs with
  | [] => .ok (e, h)
  | c :: rest =>
    match c.run e h with
    | .error p => .error p
    | .ok (e1, h1) => chain rest e1 h1

/-! ## JSON encoding of a descriptor -/

/-- The `json:"..."` tag of a struct field: the key, and the `omitempty`
option.  The key `-` drops the field. -/
structure Tag where
  key : String
  omitempty : Bool

/-- The value of a struct field, by Go type. -/
inductive FieldValue where
  | string (s : String)
  | iface (a : Any)
  | stringPtr (p : Option String)
  | int (i : Int)
  | map (m : GoMap)

/-- The fields of `ResponseBody` with their tags, in declaration order. -/
def ResponseBody.fields (e : ResponseBody) : List (Tag × FieldValue) :=
  [ (⟨"code", false⟩, .string e.Code),
    (⟨"data", false⟩, .iface e.Data),
    (⟨"message", false⟩, .string e.Message),
    (⟨"cause", true⟩, .stringPtr e.Cause),
    (⟨"-", false⟩, .int e.StatusCode),
    (⟨"-", false⟩, .map e.LocaleParams) ]

/-- The emptiness test behind `omitempty`: empty string, nil interface, nil
pointer, zero, map of length zero. -/
def FieldValue.isEmpty : FieldValue → Bool
  | .string s => s.length == 0
  | .iface Any.nil => true
  | .iface _ => false
  | .stringPtr p => p.isNone
  | .int i => i == 0
  | .map m => m.len == 0

/-- JSON for an `any`; `none` when the encoder rejects the value. -/
def Any.encode : Any → Option JSON
  | .nil => some .null
  | .bool b => some (.bool b)
  | .int i => some (.num i)
  | .str s => some (.str s)
  | .composite encoding => some encoding
  | .unsupported => none

/-- JSON members for the entries of a map; `none` as soon as one value is
rejected. -/
def encodeEntries : List (String × Any) → Option (List (String × JSON))
  | [] => some []
  | kv :: rest =>
    match kv.2.encode, encodeEntries rest with
    | some j, some js => some ((kv.1, j) :: js)
    | _, _ => none

/-- JSON for a field value; a nil pointer and a nil map encode as `null`;
`none` when the encoder rejects the value. -/
def FieldValue.encode : FieldValue → Option JSON
  | .string s => some (.str s)
  | .iface a => a.encode
  | .stringPtr none => some .null
  | .stringPtr (some s) => some (.str s)
  | .int i => some (.num i)
  | .map none => some .null
  | .map (some m) => (encodeEntries (GoMap.range (some m))).map JSON.obj

/-- JSON members for a list of tagged fields, in order; `none` as soon as
one field is rejected. -/
def encodeFields : List (Tag × FieldValue) → Option (List (String × JSON))
  | [] => some []
  | f :: rest =>
    match f.2.encode, encodeFields rest with
    | some j, some js => some ((f.1.key, j) :: js)
    | _, _ => none

/-- The members of the JSON object for a descriptor: every field whose tag
is not `-` and which is not an empty `omitempty` field, in order; `none` when
the encoder returns an error instead of an object. -/
def marshal (e : ResponseBody) : Option (List (String × JSON)) :=
  encodeFields
    (e.fields.filter (fun f => f.1.key != "-" && !(f.1.omitempty && f.2.isEmpty)))

/-! ## The emitter -/

/-- The argument `fiberi18n.Localize` receives: a bare message id, or an
`i18n.LocalizeConfig` with `MessageID` and `TemplateData`. -/
inductive LocalizeArg where
  | messageID (id : String)
  | config (MessageID : String) (TemplateData : GoMap)

/-- A call made on the request context. -/
inductive Effect where
  | localize (arg : LocalizeArg)
  | sendStatus (status : Int)
  | json (body : List (String × JSON))

/-- The `error` values `ResponseWith` returns: nil, the descriptor pointer
itself (a `*ResponseBody` is an `error`), or the error of the JSON encoder
that `ctx.JSON` hands back. -/
inductive GoError where
  | nil
  | responseBody (resp : Ref)
  | unsupportedType

/-- A request context handle (`*fiber.Ctx` when not nil). -/
abbrev Ctx := Nat

/-- Function `ResponseWith`.  `Localize ctx arg` is the pair
`(localizedMessage, localizeErr)` of `fiberi18n.Localize`, the error being
`none` for nil.  The result is the returned `error`, the heap and the calls
made on the context.  `ctx.JSON` encodes first: on an encoder error it
returns that error and writes no body. -/
def ResponseWith (Localize : Ctx → LocalizeArg → String × Option String)
    (ctx : Option Ctx) (resp : Ref) (h : Heap) :
    Except Panic (GoError × Heap × List Effect) :=
  match ctx with
  | some c => do
    let d ← deref h resp
    let arg :=
      if d.LocaleParams.len > 0 then LocalizeArg.config d.Message d.LocaleParams
      else LocalizeArg.messageID d.Message
    let (localizedMessage, localizeErr) := Localize c arg
    let h1 :=
      match localizeErr with
      | none => write h resp { d with Message := localizedMessage }
      | some _ => h
    let d1 ← deref h1 resp
    let d2 ← deref h1 resp
    match marshal d2 with
    | some body =>
      return (GoError.nil, h1,
        [Effect.localize arg, Effect.sendStatus d1.StatusCode, Effect.json body])
    | none =>
      return (GoError.unsupportedType, h1,
        [Effect.localize arg, Effect.sendStatus d1.StatusCode])
  | none => .ok (GoError.responseBody resp, h, [])

/-- Method `Response` of `Config` built by `With(ctx)`. -/
def Response (Localize : Ctx → LocalizeArg → String × Option String)
    (ctx : Option Ctx) (err : Ref) (h : Heap) :
    Except Panic (GoError × Heap × List Effect) :=
  ResponseWith Localize ctx err h


/-! ## Closed forms used in the statements -/

/-- The map the loop of `WithParams` leaves when it starts from `m` and visits
the entries `l` in order. -/
def mergeInto (m : Params) (l : List (String × Any)) : Params :=
  l.foldl (fun acc kv => acc.insert kv.1 kv.2) m

/-- The status a call passes to `WithStatusCode`, for that call only. -/
def statusCodeArg : BuilderCall → Option Int
  | .withStatusCode statusCode => some statusCode
  | _ => none

/-- The text a call passes to `WithMessage`, for that call only. -/
def messageArg : BuilderCall → Option String
  | .withMessage message => some message
  | _ => none

/-- The text a call passes to `WithCause`, for that call only. -/
def causeArg : BuilderCall → Option String
  | .withCause cause => some cause
  | _ => none

/-- The argument of the last call of a chain that `f` selects, if any. -/
def lastArg {α : Type} (f : BuilderCall → Option α) (cs : List BuilderCall) : Option α :=
  (cs.filterMap f).getLast?

/-! ## Sample values -/

/-- The descriptor of `NewFieldRequired` in the example program: one locale
parameter, no cause. -/
def fieldRequired : ResponseBody :=
  { Code := "VAL001"
    Data := Any.nil
    Message := "validation.field.required"
    Cause := none
    StatusCode := 400
    LocaleParams := some (AList.insert "field" (Any.str "email") ∅) }

/-- A descriptor written as a struct literal that leaves `LocaleParams` out,
so that the map is nil. -/
def literalBody : ResponseBody :=
  { Code := "CLT001"
    Data := Any.nil
    Message := "errors.bad_request"
    Cause := none
    StatusCode := 400
    LocaleParams := none }

/-- A descriptor whose Data the JSON encoder rejects, such as
`New("CLT001", "errors.bad_request").WithData(make(chan int))` leaves. -/
def unencodableBody : ResponseBody :=
  { Code := "CLT001"
    Data := Any.unsupported
    Message := "errors.bad_request"
    Cause := none
    StatusCode := 400
    LocaleParams := some ∅ }

/-- A descriptor written as a struct literal that sets the exported field
`Cause` directly. -/
def causeLiteral : ResponseBody :=
  { Code := "CLT001"
    Data := Any.nil
    Message := "errors.bad_request"
    Cause := some "disk full"
    StatusCode := 400
    LocaleParams := some ∅ }

/-- A localization lookup that finds no message: empty text and an error. -/
def localizeMiss : Ctx → LocalizeArg → String × Option String :=
  fun _ _ => ("", some "message not found")

/-! ## Basic facts about the heap -/

theorem deref_ok_iff {h : Heap} {e : Ref} {d : ResponseBody} :
    deref h e = .ok d ↔ ∃ a, e = some a ∧ h[a]? = some d := by
  cases e with
  | none => simp [deref]
  | some a =>
    cases hq : h[a]? with
    | none => simp [deref, hq]
    | some d0 => simp [deref, hq]

theorem lt_length_of_cell {h : Heap} {a : Nat} {d : ResponseBody} (ha : h[a]? = some d) :
    a < h.length := by
  rcases Nat.lt_or_ge a h.length with hl | hl
  · exact hl
  · rw [List.getElem?_eq_none hl] at ha; cases ha

theorem deref_write {h : Heap} {e : Ref} {d : ResponseBody} (d1 : ResponseBody)
    (hd : deref h e = .ok d) : deref (write h e d1) e = .ok d1 := by
  obtain ⟨a, rfl, ha⟩ := deref_ok_iff.mp hd
  have hlt : a < h.length := lt_length_of_cell ha
  simp [deref, write, List.getElem?_set, hlt]

theorem write_write (h : Heap) (e : Ref) (d1 d2 : ResponseBody) :
    write (write h e d1) e d2 = write h e d2 := by
  cases e with
  | none => rfl
  | some a => simp [write]

theorem write_same {h : Heap} {e : Ref} {d : ResponseBody} (hd : deref h e = .ok d) :
    write h e d = h := by
  obtain ⟨a, rfl, ha⟩ := deref_ok_iff.mp hd
  simp only [write]
  apply List.ext_getElem?
  intro i
  rw [List.getElem?_set]
  have hlt : a < h.length := lt_length_of_cell ha
  by_cases hi : a = i
  · subst hi; simp [hlt, ha]
  · simp [hi]

/-! ## What each builder does -/

theorem WithData_eq {h : Heap} {e : Ref} {d : ResponseBody} (data : Any)
    (hd : deref h e = .ok d) :
    WithData e data h = .ok (e, write h e { d with Data := data }) := by
  simp [WithData, hd, bind, Except.bind, pure, Except.pure]

theorem WithStatusCode_eq {h : Heap} {e : Ref} {d : ResponseBody} (statusCode : Int)
    (hd : deref h e = .ok d) :
    WithStatusCode e statusCode h = .ok (e, write h e { d with StatusCode := statusCode }) := by
  simp [WithStatusCode, hd, bind, Except.bind, pure, Except.pure]

theorem WithCause_eq {h : Heap} {e : Ref} {d : ResponseBody} (cause : String)
    (hd : deref h e = .ok d) :
    WithCause e cause h = .ok (e, write h e { d with Cause := some cause }) := by
  simp [WithCause, hd, bind, Except.bind, pure, Except.pure]

theorem WithMessage_eq {h : Heap} {e : Ref} {d : ResponseBody} (message : String)
    (hd : deref h e = .ok d) :
    WithMessage e message h = .ok (e, write h e { d with Message := message }) := by
  simp [WithMessage, hd, bind, Except.bind, pure, Except.pure]

theorem assignParam_eq {h : Heap} {e : Ref} {d : ResponseBody} {m : Params}
    (k : String) (v : Any) (hd : deref h e = .ok d) (hm : d.LocaleParams = some m) :
    assignParam e k v h = .ok (write h e { d with LocaleParams := some (m.insert k v) }) := by
  simp [assignParam, hd, hm, GoMap.assign, bind, Except.bind, pure, Except.pure]

theorem WithParam_eq {h : Heap} {e : Ref} {d : ResponseBody} {m : Params}
    (k : String) (v : Any) (hd : deref h e = .ok d) (hm : d.LocaleParams = some m) :
    WithParam e k v h = .ok (e, write h e { d with LocaleParams := some (m.insert k v) }) := by
  simp [WithParam, assignParam_eq k v hd hm, bind, Except.bind, pure, Except.pure]

theorem foldlM_assignParam {e : Ref} (d : ResponseBody) (l : List (String × Any)) :
    ∀ (h : Heap) (m : Params), deref h e = .ok { d with LocaleParams := some m } →
      l.foldlM (fun acc kv => assignParam e kv.1 kv.2 acc) h
        = .ok (write h e { d with LocaleParams := some (mergeInto m l) }) := by
  induction l with
  | nil =>
    intro h m hd
    simp [mergeInto, write_same hd, pure, Except.pure]
  | cons kv rest ih =>
    intro h m hd
    have h1 := assignParam_eq kv.1 kv.2 hd rfl
    simp only [List.foldlM_cons, h1, bind, Except.bind]
    have h2 := ih (write h e { d with LocaleParams := some (m.insert kv.1 kv.2) })
      (m.insert kv.1 kv.2) (deref_write _ hd)
    simp only [bind, Except.bind] at h2
    rw [h2, write_write]
    rfl

theorem WithParams_eq {h : Heap} {e : Ref} {d : ResponseBody} {m : Params}
    (params : GoMap) (hd : deref h e = .ok d) (hm : d.LocaleParams = some m) :
    WithParams e params h
      = .ok (e, write h e { d with LocaleParams := some (mergeInto m params.range) }) := by
  have hd1 : deref h e = .ok { d with LocaleParams := some m } := by
    rw [hd, ← hm]
  have := foldlM_assignParam d params.range h m hd1
  simp only [bind, Except.bind] at this
  simp [WithParams, this, bind, Except.bind, pure, Except.pure]


/-! ## Chains -/

theorem lastArg_nil {α : Type} (f : BuilderCall → Option α) : lastArg f [] = none := rfl

theorem lastArg_cons {α : Type} (f : BuilderCall → Option α) (c : BuilderCall)
    (cs : List BuilderCall) : lastArg f (c :: cs) = (lastArg f cs).or (f c) := by
  unfold lastArg
  cases hc : f c with
  | none => simp [List.filterMap_cons, hc]
  | some x =>
    rw [List.filterMap_cons, hc]
    simp only [List.getLast?_cons]
    cases (List.filterMap f cs).getLast? <;> rfl

theorem lastArg_isSome {α : Type} (f : BuilderCall → Option α) (cs : List BuilderCall) :
    (lastArg f cs).isSome ↔ ∃ c ∈ cs, (f c).isSome := by
  induction cs with
  | nil => simp [lastArg_nil]
  | cons c rest ih =>
    rw [lastArg_cons]
    cases hl : lastArg f rest with
    | none =>
      rw [hl] at ih
      have hno : ¬ ∃ c ∈ rest, (f c).isSome := fun hx => by simpa using ih.mpr hx
      constructor
      · intro hs
        exact ⟨c, List.mem_cons_self _ _, by simpa [Option.or] using hs⟩
      · rintro ⟨c1, hc1, hs⟩
        rcases List.mem_cons.mp hc1 with rfl | hr
        · simpa [Option.or] using hs
        · exact absurd ⟨c1, hr, hs⟩ hno
    | some x =>
      rw [hl] at ih
      obtain ⟨c1, hc1, hs⟩ := ih.mp rfl
      simp only [Option.or, Option.isSome_some, true_iff]
      exact ⟨c1, List.mem_cons_of_mem _ hc1, hs⟩

theorem lastArg_mem {α : Type} (f : BuilderCall → Option α) (cs : List BuilderCall) (x : α)
    (hx : lastArg f cs = some x) : ∃ c ∈ cs, f c = some x := by
  unfold lastArg at hx
  have hmem : x ∈ cs.filterMap f := List.mem_of_getLast?_eq_some hx
  obtain ⟨c, hc, hfc⟩ := List.mem_filterMap.mp hmem
  exact ⟨c, hc, hfc⟩

theorem run_spec (c : BuilderCall) {h : Heap} {e : Ref} {d : ResponseBody}
    (hd : deref h e = .ok d) (hm : d.LocaleParams ≠ none) :
    ∃ d1, c.run e h = .ok (e, write h e d1) ∧ d1.Code = d.Code ∧ d1.Data = (match c with | .withData x => x | _ => d.Data) ∧
      d1.StatusCode = (statusCodeArg c).getD d.StatusCode ∧
      d1.Message = (messageArg c).getD d.Message ∧
      d1.Cause = (causeArg c).or d.Cause ∧ d1.LocaleParams ≠ none := by
  obtain ⟨m, hm1⟩ := Option.ne_none_iff_exists'.mp hm
  cases c with
  | withData data =>
    exact ⟨_, WithData_eq data hd, rfl, rfl, rfl, rfl, rfl, hm⟩
  | withStatusCode statusCode =>
    exact ⟨_, WithStatusCode_eq statusCode hd, rfl, rfl, rfl, rfl, rfl, hm⟩
  | withCause cause =>
    exact ⟨_, WithCause_eq cause hd, rfl, rfl, rfl, rfl, rfl, hm⟩
  | withMessage message =>
    exact ⟨_, WithMessage_eq message hd, rfl, rfl, rfl, rfl, rfl, hm⟩
  | withParams params =>
    exact ⟨_, WithParams_eq params hd hm1, rfl, rfl, rfl, rfl, rfl, by simp⟩
  | withParam key value =>
    exact ⟨_, WithParam_eq key value hd hm1, rfl, rfl, rfl, rfl, rfl, by simp⟩

theorem chain_spec (cs : List BuilderCall) :
    ∀ (h : Heap) (e : Ref) (d : ResponseBody), deref h e = .ok d → d.LocaleParams ≠ none →
      ∃ d1, chain cs e h = .ok (e, write h e d1) ∧ deref (write h e d1) e = .ok d1 ∧
        d1.Code = d.Code ∧
        d1.StatusCode = (lastArg statusCodeArg cs).getD d.StatusCode ∧
        d1.Message = (lastArg messageArg cs).getD d.Message ∧
        d1.Cause = (lastArg causeArg cs).or d.Cause ∧ d1.LocaleParams ≠ none := by
  induction cs with
  | nil =>
    intro h e d hd hm
    refine ⟨d, ?_, ?_, rfl, ?_, ?_, ?_, hm⟩
    · simp [chain, write_same hd]
    · rw [write_same hd]; exact hd
    · simp [lastArg_nil]
    · simp [lastArg_nil]
    · simp [lastArg_nil, Option.or]
  | cons c rest ih =>
    intro h e d hd hm
    obtain ⟨d1, hrun, hc1, _, hs1, hm1, hca1, hp1⟩ := run_spec c hd hm
    obtain ⟨d2, hch, hd2, hc2, hs2, hm2, hca2, hp2⟩ :=
      ih (write h e d1) e d1 (deref_write d1 hd) hp1
    rw [write_write] at hch hd2
    refine ⟨d2, ?_, hd2, hc2.trans hc1, ?_, ?_, ?_, hp2⟩
    · simp [chain, hrun, hch]
    · rw [hs2, hs1, lastArg_cons]
      cases lastArg statusCodeArg rest <;> rfl
    · rw [hm2, hm1, lastArg_cons]
      cases lastArg messageArg rest <;> rfl
    · rw [hca2, hca1, lastArg_cons]
      cases lastArg causeArg rest <;> rfl

theorem deref_New (code message : String) (h : Heap) :
    deref (New code message h).2 (New code message h).1
      = .ok { Code := code, Data := Any.nil, Message := message, Cause := none,
              StatusCode := StatusBadRequest, LocaleParams := some ∅ } := by
  simp [New, deref]

/-! ## The merged map -/

theorem lookup_mergeInto (l : List (Sigma (fun _ : String => Any))) (k : String) :
    ∀ (m : Params), l.NodupKeys →
      (mergeInto m (l.map (fun kv => (kv.1, kv.2)))).lookup k
        = (List.dlookup k l).or (m.lookup k) := by
  induction l with
  | nil => intro m _; simp [mergeInto, Option.or]
  | cons x rest ih =>
    intro m hn
    obtain ⟨k1, v1⟩ := x
    have hn1 := List.nodupKeys_cons.mp hn
    have hstep : mergeInto m ((⟨k1, v1⟩ :: rest).map (fun kv => (kv.1, kv.2)))
        = mergeInto (m.insert k1 v1) (rest.map (fun kv => (kv.1, kv.2))) := by
      simp [mergeInto]
    rw [hstep, ih (m.insert k1 v1) hn1.2]
    by_cases hk : k = k1
    · subst hk
      have hnone : List.dlookup k rest = none := List.dlookup_eq_none.mpr hn1.1
      rw [hnone, List.dlookup_cons_eq, AList.lookup_insert]
      rfl
    · rw [List.dlookup_cons_ne _ _ hk, AList.lookup_insert_ne hk]

theorem get_mergeInto_range (m : Params) (params : GoMap) (k : String) :
    (mergeInto m params.range).lookup k = (params.get k).or (m.lookup k) := by
  cases params with
  | none => simp [GoMap.range, GoMap.get, mergeInto, Option.or]
  | some p =>
    simp only [GoMap.range, GoMap.get]
    rw [lookup_mergeInto p.entries k m p.nodupKeys]
    rfl

/-! ## The JSON object -/

theorem marshal_eq (d : ResponseBody) :
    marshal d =
      d.Data.encode.map (fun j =>
        [("code", JSON.str d.Code), ("data", j), ("message", JSON.str d.Message)]
          ++ (match d.Cause with
              | none => []
              | some s => [("cause", JSON.str s)])) := by
  cases hc : d.Cause with
  | none =>
    cases hj : d.Data.encode <;>
      simp [marshal, ResponseBody.fields, FieldValue.isEmpty, FieldValue.encode, encodeFields,
        hc, hj]
  | some s =>
    cases hj : d.Data.encode <;>
      simp [marshal, ResponseBody.fields, FieldValue.isEmpty, FieldValue.encode, encodeFields,
        hc, hj]

theorem marshal_eq_none (d : ResponseBody) : marshal d = none ↔ d.Data.encode = none := by
  rw [marshal_eq]; simp

theorem marshal_eq_some {d : ResponseBody} {body : List (String × JSON)}
    (hb : marshal d = some body) :
    ∃ j, d.Data.encode = some j ∧
      body = [("code", JSON.str d.Code), ("data", j), ("message", JSON.str d.Message)]
          ++ (match d.Cause with
              | none => []
              | some s => [("cause", JSON.str s)]) := by
  rw [marshal_eq] at hb
  cases hj : d.Data.encode with
  | none => rw [hj] at hb; cases hb
  | some j =>
    rw [hj] at hb
    exact ⟨j, rfl, (Option.some.inj hb).symm⟩

/-! ## The emitter -/

theorem ResponseWith_ctx (Localize : Ctx → LocalizeArg → String × Option String)
    (c : Ctx) {resp : Ref} {h : Heap} {d : ResponseBody} (hd : deref h resp = .ok d)
    (arg : LocalizeArg)
    (harg : arg = if d.LocaleParams.len > 0 then LocalizeArg.config d.Message d.LocaleParams
      else LocalizeArg.messageID d.Message) :
    ∃ d1, ResponseWith Localize (some c) resp h
        = .ok (match marshal d1 with
            | some body => (GoError.nil, write h resp d1,
                [Effect.localize arg, Effect.sendStatus d.StatusCode, Effect.json body])
            | none => (GoError.unsupportedType, write h resp d1,
                [Effect.localize arg, Effect.sendStatus d.StatusCode])) ∧
      deref (write h resp d1) resp = .ok d1 ∧
      d1 = (match (Localize c arg).2 with
            | none => { d with Message := (Localize c arg).1 }
            | some _ => d) := by
  subst harg
  cases hl : (Localize c (if d.LocaleParams.len > 0 then LocalizeArg.config d.Message d.LocaleParams
      else LocalizeArg.messageID d.Message)).2 with
  | none =>
    refine ⟨{ d with Message := (Localize c (if d.LocaleParams.len > 0 then
      LocalizeArg.config d.Message d.LocaleParams else LocalizeArg.messageID d.Message)).1 }, ?_,
      deref_write _ hd, rfl⟩
    simp only [ResponseWith, hd, hl, deref_write _ hd, bind, Except.bind, pure, Except.pure]
    split <;> rfl
  | some err =>
    refine ⟨d, ?_, ?_, rfl⟩
    · simp only [ResponseWith, hd, hl, write_same hd, bind, Except.bind, pure, Except.pure]
      split <;> rfl
    · rw [write_same hd]; exact hd

theorem lastArg_eq_none_of_forall {α : Type} (f : BuilderCall → Option α)
    (cs : List BuilderCall) (hno : ∀ c ∈ cs, f c = none) : lastArg f cs = none := by
  have hnil : cs.filterMap f = [] := List.filterMap_eq_nil_iff.mpr hno
  simp [lastArg, hnil]

theorem lastArg_append_cons {α : Type} (f : BuilderCall → Option α)
    (pre post : List BuilderCall) (c : BuilderCall) (x : α) (hc : f c = some x)
    (hno : ∀ c1 ∈ post, f c1 = none) : lastArg f (pre ++ c :: post) = some x := by
  have hnil : post.filterMap f = [] := List.filterMap_eq_nil_iff.mpr hno
  simp [lastArg, List.filterMap_append, List.filterMap_cons, hc, hnil]

/-! ## Chains on any descriptor -/

theorem WithParam_nil {h : Heap} {e : Ref} {d : ResponseBody}
    (k : String) (v : Any) (hd : deref h e = .ok d) (hm : d.LocaleParams = none) :
    WithParam e k v h = .error Panic.assignmentToEntryInNilMap := by
  simp [WithParam, assignParam, hd, hm, GoMap.assign, bind, Except.bind]

theorem WithParams_nil {h : Heap} {e : Ref} {d : ResponseBody}
    (params : GoMap) (hd : deref h e = .ok d) (hm : d.LocaleParams = none) :
    WithParams e params h
      = (match params.range with
         | [] => .ok (e, h)
         | _ :: _ => .error Panic.assignmentToEntryInNilMap) := by
  cases hr : params.range with
  | nil => simp [WithParams, hr, bind, Except.bind, pure, Except.pure]
  | cons kv rest =>
    simp [WithParams, hr, assignParam, hd, hm, GoMap.assign, bind, Except.bind]

theorem run_ok (c : BuilderCall) {h : Heap} {e : Ref} {d : ResponseBody} {r : Ref × Heap}
    (hd : deref h e = .ok d) (hr : c.run e h = .ok r) :
    r.1 = e ∧ ∃ d1, deref r.2 e = .ok d1 ∧ d1.Cause = (causeArg c).or d.Cause := by
  cases hm : d.LocaleParams with
  | some m =>
    obtain ⟨d1, hrun, _, _, _, _, hca, _⟩ := run_spec c hd (by rw [hm]; simp)
    rw [hrun] at hr
    cases hr
    exact ⟨rfl, d1, deref_write d1 hd, hca⟩
  | none =>
    cases c with
    | withData data =>
      rw [BuilderCall.run, WithData_eq data hd] at hr
      cases hr
      exact ⟨rfl, _, deref_write _ hd, rfl⟩
    | withStatusCode statusCode =>
      rw [BuilderCall.run, WithStatusCode_eq statusCode hd] at hr
      cases hr
      exact ⟨rfl, _, deref_write _ hd, rfl⟩
    | withCause cause =>
      rw [BuilderCall.run, WithCause_eq cause hd] at hr
      cases hr
      exact ⟨rfl, _, deref_write _ hd, rfl⟩
    | withMessage message =>
      rw [BuilderCall.run, WithMessage_eq message hd] at hr
      cases hr
      exact ⟨rfl, _, deref_write _ hd, rfl⟩
    | withParams params =>
      rw [BuilderCall.run, WithParams_nil params hd hm] at hr
      cases hrange : params.range with
      | nil =>
        rw [hrange] at hr
        cases hr
        exact ⟨rfl, d, hd, rfl⟩
      | cons kv rest =>
        rw [hrange] at hr
        cases hr
    | withParam key value =>
      rw [BuilderCall.run, WithParam_nil key value hd hm] at hr
      cases hr

theorem chain_ok (cs : List BuilderCall) :
    ∀ (h : Heap) (e : Ref) (d : ResponseBody) (r : Ref × Heap),
      deref h e = .ok d → chain cs e h = .ok r →
      r.1 = e ∧ ∃ d1, deref r.2 e = .ok d1 ∧ d1.Cause = (lastArg causeArg cs).or d.Cause := by
  induction cs with
  | nil =>
    intro h e d r hd hr
    simp only [chain] at hr
    cases hr
    exact ⟨rfl, d, hd, by simp [lastArg_nil, Option.or]⟩
  | cons c rest ih =>
    intro h e d r hd hr
    simp only [chain] at hr
    cases hrun : c.run e h with
    | error p => rw [hrun] at hr; cases hr
    | ok r1 =>
      rw [hrun] at hr
      obtain ⟨he1, d1, hd1, hc1⟩ := run_ok c hd hrun
      obtain ⟨e1, h1⟩ := r1
      simp only at he1 hd1 hr
      subst he1
      obtain ⟨he2, d2, hd2, hc2⟩ := ih h1 e1 d1 r hd1 hr
      refine ⟨he2, d2, hd2, ?_⟩
      rw [hc2, hc1, lastArg_cons]
      cases lastArg causeArg rest <;> rfl

theorem withCause_mem_iff (cs : List BuilderCall) :
    (lastArg causeArg cs).isSome ↔ ∃ s, BuilderCall.withCause s ∈ cs := by
  rw [lastArg_isSome]
  constructor
  · rintro ⟨b, hb, hs⟩
    cases b with
    | withCause s => exact ⟨s, hb⟩
    | withData _ => simp [causeArg] at hs
    | withStatusCode _ => simp [causeArg] at hs
    | withMessage _ => simp [causeArg] at hs
    | withParams _ => simp [causeArg] at hs
    | withParam _ _ => simp [causeArg] at hs
  · rintro ⟨s, hs⟩
    exact ⟨_, hs, rfl⟩

theorem messageArg_eq_some {b : BuilderCall} {x : String} (hb : messageArg b = some x) :
    b = BuilderCall.withMessage x := by
  cases b with
  | withMessage s =>
    have hsx : s = x := by simpa [messageArg] using hb
    rw [hsx]
  | withData _ => simp [messageArg] at hb
  | withStatusCode _ => simp [messageArg] at hb
  | withCause _ => simp [messageArg] at hb
  | withParams _ => simp [messageArg] at hb
  | withParam _ _ => simp [messageArg] at hb

/-! ## The claims -/

/-- C1: `New(code, message)` returns a pointer to a newly allocated descriptor
whose Code is `code`, whose Message is `message`, whose Data and Cause are
absent, whose StatusCode is 400 and whose LocaleParams is a non-nil map with
no entry; the descriptors allocated before are untouched. -/
theorem C1_New_descriptor (code message : String) (h : Heap) :
    ∃ d, deref (New code message h).2 (New code message h).1 = .ok d ∧
      d.Code = code ∧ d.Message = message ∧ d.Data = Any.nil ∧ d.Cause = none ∧
      d.StatusCode = 400 ∧ d.LocaleParams = some ∅ ∧ d.LocaleParams ≠ none ∧
      d.LocaleParams.len = 0 ∧ (∀ k, d.LocaleParams.get k = none) ∧
      ∀ (a : Nat) (d0 : ResponseBody), h[a]? = some d0 → (New code message h).2[a]? = some d0 := by
  refine ⟨_, deref_New code message h, rfl, rfl, rfl, rfl, rfl, rfl, by simp, rfl, ?_, ?_⟩
  · intro k; rfl
  · intro a d0 ha
    simp [New, List.getElem?_append_left (lt_length_of_cell ha), ha]

/-- C2 fails as stated: when Data is a value the JSON encoder rejects,
`ResponseWith` with an active context and a failing lookup sends the status
but writes no JSON body and returns the error of the encoder, not nil. -/
theorem C2_counterexample :
    deref [unencodableBody] (some 0) = .ok unencodableBody ∧
    ResponseWith localizeMiss (some 7) (some 0) [unencodableBody]
      = .ok (GoError.unsupportedType, [unencodableBody],
          [Effect.localize (LocalizeArg.messageID "errors.bad_request"),
            Effect.sendStatus 400]) :=
  ⟨rfl, rfl⟩

/-- C2 amended: with an active request context, `ResponseWith` makes the
lookup and then sends the status; it leaves the message of the descriptor
equal to the localized string when the lookup returns no error, and equal to
the original message when the lookup returns an error, which is never what
`ResponseWith` returns.  When Data encodes as JSON the returned error is nil
and the JSON body is written after the status, carrying the message just
described; when the encoder rejects Data no body is written and the error of
the encoder is returned. -/
theorem C2_localization_fallback (Localize : Ctx → LocalizeArg → String × Option String)
    (c : Ctx) (resp : Ref) (h : Heap) (d : ResponseBody) (hd : deref h resp = .ok d) :
    ∃ arg err h1 d1 tail,
      ResponseWith Localize (some c) resp h
        = .ok (err, h1, Effect.localize arg :: Effect.sendStatus d.StatusCode :: tail) ∧
      deref h1 resp = .ok d1 ∧
      (∀ s, Localize c arg = (s, none) → d1 = { d with Message := s }) ∧
      (∀ s e, Localize c arg = (s, some e) → d1 = d ∧ d1.Message = d.Message ∧ h1 = h) ∧
      (∀ j, d.Data.encode = some j →
        err = GoError.nil ∧
        ∃ body, marshal d1 = some body ∧ tail = [Effect.json body] ∧
          ("message", JSON.str d1.Message) ∈ body) ∧
      (d.Data.encode = none → err = GoError.unsupportedType ∧ tail = []) := by
  obtain ⟨d1, hrw, hd1, hval⟩ := ResponseWith_ctx Localize c hd _ rfl
  have hdata : d1.Data = d.Data := by
    rw [hval]; split <;> rfl
  cases hm : marshal d1 with
  | none =>
    simp only [hm] at hrw
    have hnone : d.Data.encode = none := by
      rw [← hdata]; exact (marshal_eq_none d1).mp hm
    refine ⟨_, _, _, d1, [], hrw, hd1, ?_, ?_, ?_, ?_⟩
    · intro s hs
      rw [hs] at hval
      exact hval
    · intro s e hs
      rw [hs] at hval
      subst hval
      exact ⟨rfl, rfl, write_same hd⟩
    · intro j hj
      rw [hnone] at hj
      cases hj
    · intro _
      exact ⟨rfl, rfl⟩
  | some body =>
    simp only [hm] at hrw
    obtain ⟨j1, hj1, hbody⟩ := marshal_eq_some hm
    refine ⟨_, _, _, d1, [Effect.json body], hrw, hd1, ?_, ?_, ?_, ?_⟩
    · intro s hs
      rw [hs] at hval
      exact hval
    · intro s e hs
      rw [hs] at hval
      subst hval
      exact ⟨rfl, rfl, write_same hd⟩
    · intro j _
      refine ⟨rfl, body, hm, rfl, ?_⟩
      rw [hbody]
      simp
    · intro hnone
      rw [← hdata, hj1] at hnone
      cases hnone

theorem C2_localization_fallback_witness :
    deref [fieldRequired] (some 0) = .ok fieldRequired ∧
    ∃ arg err h1 d1 tail,
      ResponseWith localizeMiss (some 7) (some 0) [fieldRequired]
        = .ok (err, h1,
            Effect.localize arg :: Effect.sendStatus fieldRequired.StatusCode :: tail) ∧
      deref h1 (some 0) = .ok d1 ∧
      (∀ s, localizeMiss 7 arg = (s, none) → d1 = { fieldRequired with Message := s }) ∧
      (∀ s e, localizeMiss 7 arg = (s, some e) →
        d1 = fieldRequired ∧ d1.Message = fieldRequired.Message ∧ h1 = [fieldRequired]) ∧
      (∀ j, fieldRequired.Data.encode = some j →
        err = GoError.nil ∧
        ∃ body, marshal d1 = some body ∧ tail = [Effect.json body] ∧
          ("message", JSON.str d1.Message) ∈ body) ∧
      (fieldRequired.Data.encode = none → err = GoError.unsupportedType ∧ tail = []) :=
  ⟨rfl, C2_localization_fallback localizeMiss 7 (some 0) [fieldRequired] fieldRequired rfl⟩

/-- C3: for a descriptor built by `New` and any chain of builder calls, the
chain succeeds and `ResponseWith` with an active context sends as status,
right after the lookup, the argument of the last `WithStatusCode` call of the
chain, and 400 when the chain has none; nothing but at most the JSON body
follows, and the descriptor still holds that status after the emitter. -/
theorem C3_emitted_status (Localize : Ctx → LocalizeArg → String × Option String)
    (c : Ctx) (code message : String) (cs : List BuilderCall) (h : Heap) :
    ∃ e h1 h2 err arg tail d2 status,
      chain cs (New code message h).1 (New code message h).2 = .ok (e, h1) ∧
      ResponseWith Localize (some c) e h1
        = .ok (err, h2, Effect.localize arg :: Effect.sendStatus status :: tail) ∧
      (tail = [] ∨ ∃ body, tail = [Effect.json body]) ∧
      deref h2 e = .ok d2 ∧ d2.StatusCode = status ∧
      status = (lastArg statusCodeArg cs).getD 400 ∧
      ((∀ b ∈ cs, statusCodeArg b = none) → status = 400) ∧
      (∀ pre post n, cs = pre ++ BuilderCall.withStatusCode n :: post →
        (∀ b ∈ post, statusCodeArg b = none) → status = n) := by
  obtain ⟨d1, hch, hd1, _, hs1, _, _, _⟩ :=
    chain_spec cs (New code message h).2 (New code message h).1 _
      (deref_New code message h) (by simp)
  obtain ⟨d2, hrw, hd2, hval⟩ := ResponseWith_ctx Localize c hd1 _ rfl
  have hst : d2.StatusCode = d1.StatusCode := by
    rw [hval]; split <;> rfl
  have hs400 : d1.StatusCode = (lastArg statusCodeArg cs).getD 400 := hs1
  have hrest : (∀ b ∈ cs, statusCodeArg b = none) → d1.StatusCode = 400 := by
    intro hno
    rw [hs400, lastArg_eq_none_of_forall _ _ hno]
    rfl
  have hlast : ∀ pre post n, cs = pre ++ BuilderCall.withStatusCode n :: post →
      (∀ b ∈ post, statusCodeArg b = none) → d1.StatusCode = n := by
    intro pre post n hcs hno
    rw [hs400, hcs,
      lastArg_append_cons statusCodeArg pre post (BuilderCall.withStatusCode n) n rfl hno]
    rfl
  cases hm : marshal d2 with
  | none =>
    simp only [hm] at hrw
    exact ⟨_, _, _, _, _, [], d2, d1.StatusCode, hch, hrw, Or.inl rfl, hd2, hst, hs400,
      hrest, hlast⟩
  | some body =>
    simp only [hm] at hrw
    exact ⟨_, _, _, _, _, [Effect.json body], d2, d1.StatusCode, hch, hrw,
      Or.inr ⟨body, rfl⟩, hd2, hst, hs400, hrest, hlast⟩

/-- C4: with an active request context, `ResponseWith` makes exactly one
localization lookup, before the status, and nothing but at most the JSON body
follows the status; when LocaleParams has at least one entry the lookup
receives a config whose message id is the message and whose template data is
LocaleParams, and when LocaleParams has no entry (or is nil) it receives the
message alone. -/
theorem C4_lookup_argument (Localize : Ctx → LocalizeArg → String × Option String)
    (c : Ctx) (resp : Ref) (h : Heap) (d : ResponseBody) (hd : deref h resp = .ok d) :
    ∃ arg err h1 status tail,
      ResponseWith Localize (some c) resp h
        = .ok (err, h1, Effect.localize arg :: Effect.sendStatus status :: tail) ∧
      (tail = [] ∨ ∃ body, tail = [Effect.json body]) ∧
      (0 < d.LocaleParams.len → arg = LocalizeArg.config d.Message d.LocaleParams) ∧
      (d.LocaleParams.len = 0 → arg = LocalizeArg.messageID d.Message) := by
  obtain ⟨d1, hrw, _, _⟩ := ResponseWith_ctx Localize c hd _ rfl
  cases hm : marshal d1 with
  | none =>
    simp only [hm] at hrw
    refine ⟨_, _, _, _, [], hrw, Or.inl rfl, ?_, ?_⟩
    · intro hpos; simp [hpos]
    · intro hz; simp [hz]
  | some body =>
    simp only [hm] at hrw
    refine ⟨_, _, _, _, [Effect.json body], hrw, Or.inr ⟨body, rfl⟩, ?_, ?_⟩
    · intro hpos; simp [hpos]
    · intro hz; simp [hz]

theorem C4_lookup_argument_witness :
    deref [fieldRequired] (some 0) = .ok fieldRequired ∧
    ∃ arg err h1 status tail,
      ResponseWith localizeMiss (some 7) (some 0) [fieldRequired]
        = .ok (err, h1, Effect.localize arg :: Effect.sendStatus status :: tail) ∧
      (tail = [] ∨ ∃ body, tail = [Effect.json body]) ∧
      (0 < fieldRequired.LocaleParams.len →
        arg = LocalizeArg.config fieldRequired.Message fieldRequired.LocaleParams) ∧
      (fieldRequired.LocaleParams.len = 0 → arg = LocalizeArg.messageID fieldRequired.Message) :=
  ⟨rfl, C4_lookup_argument localizeMiss 7 (some 0) [fieldRequired] fieldRequired rfl⟩

/-- C5: without a request context (nil ctx) `ResponseWith` returns the
descriptor pointer itself as its result, leaves the heap, hence every field of
the descriptor, as it was, and makes no call at all: no lookup, no status, no
body. -/
theorem C5_nil_context (Localize : Ctx → LocalizeArg → String × Option String)
    (resp : Ref) (h : Heap) :
    ResponseWith Localize none resp h = .ok (GoError.responseBody resp, h, []) := by
  rfl

/-- C6 fails as stated: a descriptor written as a struct literal that sets
the exported field Cause serializes with a cause member although `WithCause`
was never called on it; and a descriptor whose Data the encoder rejects has no
JSON object at all. -/
theorem C6_counterexample :
    (chain [] (some 0) [causeLiteral] = .ok (some 0, [causeLiteral]) ∧
      deref [causeLiteral] (some 0) = .ok causeLiteral ∧
      marshal causeLiteral
        = some [("code", JSON.str "CLT001"), ("data", JSON.null),
            ("message", JSON.str "errors.bad_request"), ("cause", JSON.str "disk full")]) ∧
    marshal unencodableBody = none :=
  ⟨⟨rfl, rfl, rfl⟩, rfl⟩

/-- C6 amended: a descriptor serializes to a JSON object exactly when its
Data encodes; the object then has the members code, data and message (data
being null when Data is absent), then the member cause exactly when Cause is
set, with the string Cause points at, empty or not, and no other member, so
none for StatusCode or LocaleParams.  `WithCause(s)` sets Cause to `s` on every
descriptor and no other builder changes Cause: after a chain of builder calls
Cause is the argument of the last `WithCause` call, or what it was before when
there is none, so on a descriptor that started without cause the member is
present exactly when `WithCause` was called.  From `New` every chain
succeeds. -/
theorem C6_serialized_members :
    (∀ d : ResponseBody,
      marshal d =
        d.Data.encode.map (fun j =>
          [("code", JSON.str d.Code), ("data", j), ("message", JSON.str d.Message)]
            ++ (match d.Cause with
                | none => []
                | some s => [("cause", JSON.str s)]))) ∧
    (∀ (d : ResponseBody) (body : List (String × JSON)), marshal d = some body →
      body.map Prod.fst
        = ["code", "data", "message"] ++ (if d.Cause.isSome then ["cause"] else []) ∧
      (∀ j, ("cause", j) ∈ body ↔ ∃ s, d.Cause = some s ∧ j = JSON.str s) ∧
      (d.Data = Any.nil → ("data", JSON.null) ∈ body)) ∧
    (∀ (e : Ref) (h : Heap) (d : ResponseBody) (s : String), deref h e = .ok d →
      ∃ h1, WithCause e s h = .ok (e, h1) ∧ deref h1 e = .ok { d with Cause := some s }) ∧
    (∀ (cs : List BuilderCall) (e : Ref) (h : Heap) (d0 : ResponseBody) (r : Ref × Heap),
      deref h e = .ok d0 → chain cs e h = .ok r →
      r.1 = e ∧ ∃ d, deref r.2 e = .ok d ∧
        d.Cause = (lastArg causeArg cs).or d0.Cause ∧
        (d0.Cause = none → (d.Cause.isSome ↔ ∃ s, BuilderCall.withCause s ∈ cs)) ∧
        (∀ pre post s, cs = pre ++ BuilderCall.withCause s :: post →
          (∀ b ∈ post, causeArg b = none) → d.Cause = some s)) ∧
    (∀ (code message : String) (cs : List BuilderCall) (h : Heap),
      ∃ r, chain cs (New code message h).1 (New code message h).2 = .ok r) := by
  refine ⟨marshal_eq, ?_, ?_, ?_, ?_⟩
  · intro d body hb
    obtain ⟨j0, hj0, hbody⟩ := marshal_eq_some hb
    refine ⟨?_, ?_, ?_⟩
    · rw [hbody]
      cases d.Cause <;> simp
    · intro j
      rw [hbody]
      cases hc : d.Cause with
      | none => simp
      | some s =>
        simp only [List.mem_append, List.mem_cons, Prod.mk.injEq, List.mem_singleton,
          List.not_mem_nil, or_false, Option.some.injEq]
        constructor
        · rintro (h1 | h1)
          · rcases h1 with ⟨h2, _⟩ | ⟨h2, _⟩ | ⟨h2, _⟩ <;> exact absurd h2 (by decide)
          · exact ⟨s, rfl, h1.2⟩
        · rintro ⟨s1, hs1, hj⟩
          subst hs1
          exact Or.inr ⟨trivial, hj⟩
    · intro hnil
      rw [hnil] at hj0
      have hj : j0 = JSON.null := by
        simp only [Any.encode, Option.some.injEq] at hj0
        exact hj0.symm
      rw [hbody, hj]
      simp
  · intro e h d s hd
    exact ⟨_, WithCause_eq s hd, deref_write _ hd⟩
  · intro cs e h d0 r hd hr
    obtain ⟨he, d, hd1, hca⟩ := chain_ok cs h e d0 r hd hr
    refine ⟨he, d, hd1, hca, ?_, ?_⟩
    · intro hc
      have hcause : d.Cause = lastArg causeArg cs := by
        rw [hca, hc]; cases lastArg causeArg cs <;> rfl
      rw [hcause]
      exact withCause_mem_iff cs
    · intro pre post s hcs hno
      rw [hca, hcs, lastArg_append_cons causeArg pre post (BuilderCall.withCause s) s rfl hno]
      rfl
  · intro code message cs h
    obtain ⟨d1, hch, _⟩ :=
      chain_spec cs (New code message h).2 (New code message h).1 _
        (deref_New code message h) (by simp)
    exact ⟨_, hch⟩

/-- C7: on a descriptor with a non-nil LocaleParams, `WithParam(k, v)`
followed by `WithParam(k, v2)` on the returned pointer succeeds, returns the
receiver both times, leaves `v2` under `k`, leaves every other key with the
value (or the absence) it had before, and changes no other field. -/
theorem C7_WithParam_last_write_wins (e : Ref) (h : Heap) (d : ResponseBody) (m : Params)
    (k : String) (v v2 : Any) (hd : deref h e = .ok d) (hm : d.LocaleParams = some m) :
    ∃ h1 h2 d2, WithParam e k v h = .ok (e, h1) ∧ WithParam e k v2 h1 = .ok (e, h2) ∧
      deref h2 e = .ok d2 ∧ d2.LocaleParams ≠ none ∧
      d2.LocaleParams.get k = some v2 ∧
      (∀ k1, k1 ≠ k → d2.LocaleParams.get k1 = d.LocaleParams.get k1) ∧
      d2 = { d with LocaleParams := d2.LocaleParams } := by
  have h1 := WithParam_eq k v hd hm
  have hd1 := deref_write { d with LocaleParams := some (m.insert k v) } hd
  have h2 := WithParam_eq (m := m.insert k v) k v2 hd1 rfl
  rw [write_write] at h2
  refine ⟨_, _, _, h1, h2, deref_write _ hd, by simp, ?_, ?_, rfl⟩
  · simp [GoMap.get, AList.lookup_insert]
  · intro k1 hk
    simp [GoMap.get, hm, AList.lookup_insert_ne hk]

theorem C7_WithParam_last_write_wins_witness :
    (deref [fieldRequired] (some 0) = .ok fieldRequired ∧
      fieldRequired.LocaleParams = some (AList.insert "field" (Any.str "email") ∅)) ∧
    ∃ h1 h2 d2,
      WithParam (some 0) "field" (Any.int 3) [fieldRequired] = .ok (some 0, h1) ∧
      WithParam (some 0) "field" (Any.int 20) h1 = .ok (some 0, h2) ∧
      deref h2 (some 0) = .ok d2 ∧ d2.LocaleParams ≠ none ∧
      d2.LocaleParams.get "field" = some (Any.int 20) ∧
      (∀ k1, k1 ≠ "field" → d2.LocaleParams.get k1 = fieldRequired.LocaleParams.get k1) ∧
      d2 = { fieldRequired with LocaleParams := d2.LocaleParams } :=
  ⟨⟨rfl, rfl⟩, C7_WithParam_last_write_wins (some 0) [fieldRequired] fieldRequired
    (AList.insert "field" (Any.str "email") ∅) "field" (Any.int 3) (Any.int 20) rfl rfl⟩

/-- C8: on a descriptor with a non-nil LocaleParams, `WithParams(m)` succeeds
and returns the receiver; afterwards every key of `m` holds its value in `m`,
every key not in `m` holds what it held before, the keys present are those
present before together with those of `m`, and no other field has changed. -/
theorem C8_WithParams_merge (e : Ref) (h : Heap) (d : ResponseBody) (m0 : Params)
    (params : GoMap) (hd : deref h e = .ok d) (hm : d.LocaleParams = some m0) :
    ∃ h1 d1, WithParams e params h = .ok (e, h1) ∧ deref h1 e = .ok d1 ∧
      d1.LocaleParams ≠ none ∧
      (∀ k v, params.get k = some v → d1.LocaleParams.get k = some v) ∧
      (∀ k, params.get k = none → d1.LocaleParams.get k = d.LocaleParams.get k) ∧
      (∀ k, (d1.LocaleParams.get k).isSome
        ↔ ((d.LocaleParams.get k).isSome ∨ (params.get k).isSome)) ∧
      d1 = { d with LocaleParams := d1.LocaleParams } := by
  have hw := WithParams_eq params hd hm
  have hget : ∀ k, GoMap.get (some (mergeInto m0 params.range)) k
      = (params.get k).or (d.LocaleParams.get k) := by
    intro k
    rw [hm]
    exact get_mergeInto_range m0 params k
  refine ⟨_, _, hw, deref_write _ hd, by simp, ?_, ?_, ?_, rfl⟩
  · intro k v hk
    show GoMap.get (some (mergeInto m0 params.range)) k = some v
    rw [hget, hk]; rfl
  · intro k hk
    show GoMap.get (some (mergeInto m0 params.range)) k = _
    rw [hget, hk]; rfl
  · intro k
    show (GoMap.get (some (mergeInto m0 params.range)) k).isSome ↔ _
    rw [hget]
    cases params.get k <;> simp [Option.or]

theorem C8_WithParams_merge_witness :
    (deref [fieldRequired] (some 0) = .ok fieldRequired ∧
      fieldRequired.LocaleParams = some (AList.insert "field" (Any.str "email") ∅)) ∧
    ∃ h1 d1,
      WithParams (some 0) (some (AList.insert "field" (Any.str "name") (AList.insert "min" (Any.int 3) ∅)))
        [fieldRequired] = .ok (some 0, h1) ∧
      deref h1 (some 0) = .ok d1 ∧ d1.LocaleParams ≠ none ∧
      (∀ k v, GoMap.get (some (AList.insert "field" (Any.str "name") (AList.insert "min" (Any.int 3) ∅))) k
          = some v → d1.LocaleParams.get k = some v) ∧
      (∀ k, GoMap.get (some (AList.insert "field" (Any.str "name") (AList.insert "min" (Any.int 3) ∅))) k
          = none → d1.LocaleParams.get k = fieldRequired.LocaleParams.get k) ∧
      (∀ k, (d1.LocaleParams.get k).isSome
        ↔ ((fieldRequired.LocaleParams.get k).isSome ∨
            (GoMap.get (some (AList.insert "field" (Any.str "name")
              (AList.insert "min" (Any.int 3) ∅))) k).isSome)) ∧
      d1 = { fieldRequired with LocaleParams := d1.LocaleParams } :=
  ⟨⟨rfl, rfl⟩, C8_WithParams_merge (some 0) [fieldRequired] fieldRequired
    (AList.insert "field" (Any.str "email") ∅)
    (some (AList.insert "field" (Any.str "name") (AList.insert "min" (Any.int 3) ∅))) rfl rfl⟩

/-- C9 fails as stated: `New` takes its arguments as they are, so
`New("", "")` is a descriptor with empty Code and empty Message, and
`WithMessage("")` empties the message of any descriptor. -/
theorem C9_counterexample :
    (∃ h1 d, chain [] (New "" "" []).1 (New "" "" []).2 = .ok (some 0, h1) ∧
      deref h1 (some 0) = .ok d ∧ d.Code = "" ∧ d.Message = "") ∧
    (∃ h1 d, chain [BuilderCall.withMessage ""] (New "CLT001" "errors.bad_request" []).1
        (New "CLT001" "errors.bad_request" []).2 = .ok (some 0, h1) ∧
      deref h1 (some 0) = .ok d ∧ d.Message = "") :=
  ⟨⟨_, _, rfl, rfl, rfl, rfl⟩, ⟨_, _, rfl, rfl, rfl⟩⟩

/-- C9 amended: for a descriptor built by `New(code, message)` and any chain
of builder calls, the chain succeeds, Code is `code` and Message is the
argument of the last `WithMessage` call, or `message` when there is none; so
Code is non-empty exactly when `code` is, Message is non-empty exactly when
that last argument is, and both are non-empty when `code`, `message` and every
`WithMessage` argument of the chain are non-empty. -/
theorem C9_code_and_message (code message : String) (cs : List BuilderCall) (h : Heap) :
    ∃ e h1 d, chain cs (New code message h).1 (New code message h).2 = .ok (e, h1) ∧
      deref h1 e = .ok d ∧ d.Code = code ∧
      d.Message = (lastArg messageArg cs).getD message ∧
      ((∀ b ∈ cs, messageArg b = none) → d.Message = message) ∧
      (∀ pre post s, cs = pre ++ BuilderCall.withMessage s :: post →
        (∀ b ∈ post, messageArg b = none) → d.Message = s) ∧
      (d.Code ≠ "" ↔ code ≠ "") ∧
      (d.Message ≠ "" ↔ (lastArg messageArg cs).getD message ≠ "") ∧
      (code ≠ "" → message ≠ "" → (∀ s, BuilderCall.withMessage s ∈ cs → s ≠ "") →
        d.Code ≠ "" ∧ d.Message ≠ "") := by
  obtain ⟨d, hch, hd1, hc, _, hm, _, _⟩ :=
    chain_spec cs (New code message h).2 (New code message h).1 _
      (deref_New code message h) (by simp)
  have hc1 : d.Code = code := hc
  have hm1 : d.Message = (lastArg messageArg cs).getD message := hm
  refine ⟨_, _, d, hch, hd1, hc1, hm1, ?_, ?_, by rw [hc1], by rw [hm1], ?_⟩
  · intro hno
    rw [hm1, lastArg_eq_none_of_forall _ _ hno]
    rfl
  · intro pre post s hcs hno
    rw [hm1, hcs, lastArg_append_cons messageArg pre post (BuilderCall.withMessage s) s rfl hno]
    rfl
  · intro hcode hmsg hcs
    refine ⟨by rw [hc1]; exact hcode, ?_⟩
    rw [hm1]
    cases hl : lastArg messageArg cs with
    | none => exact hmsg
    | some x =>
      obtain ⟨b, hb, hbx⟩ := lastArg_mem messageArg cs x hl
      rw [messageArg_eq_some hbx] at hb
      exact hcs x hb

/-- C10 fails as stated: on a descriptor written as a struct literal without
LocaleParams the map is nil, and both `WithParam` and `WithParams` with a
mapping of one entry abort on the assignment to an entry of a nil map. -/
theorem C10_counterexample :
    deref [literalBody] (some 0) = .ok literalBody ∧ literalBody.LocaleParams = none ∧
    WithParam (some 0) "field" (Any.str "email") [literalBody]
      = .error Panic.assignmentToEntryInNilMap ∧
    WithParams (some 0) (some (AList.insert "field" (Any.str "email") ∅)) [literalBody]
      = .error Panic.assignmentToEntryInNilMap :=
  ⟨rfl, rfl, rfl, rfl⟩

/-- C10 amended: on every descriptor `WithData`, `WithStatusCode`, `WithCause`
and `WithMessage` succeed for every argument and return the receiver; so do
`WithParam` and `WithParams` when LocaleParams is not nil; and `WithParams`
with a mapping that has no entry succeeds and changes nothing whatever
LocaleParams is. -/
theorem C10_builders_succeed (e : Ref) (h : Heap) (d : ResponseBody)
    (hd : deref h e = .ok d) :
    (∀ data, ∃ h1, WithData e data h = .ok (e, h1)) ∧
    (∀ statusCode, ∃ h1, WithStatusCode e statusCode h = .ok (e, h1)) ∧
    (∀ cause, ∃ h1, WithCause e cause h = .ok (e, h1)) ∧
    (∀ message, ∃ h1, WithMessage e message h = .ok (e, h1)) ∧
    (d.LocaleParams ≠ none →
      (∀ key value, ∃ h1, WithParam e key value h = .ok (e, h1)) ∧
      (∀ params, ∃ h1, WithParams e params h = .ok (e, h1))) ∧
    (∀ params : GoMap, params.len = 0 → WithParams e params h = .ok (e, h)) := by
  refine ⟨fun data => ⟨_, WithData_eq data hd⟩, fun s => ⟨_, WithStatusCode_eq s hd⟩,
    fun c => ⟨_, WithCause_eq c hd⟩, fun m => ⟨_, WithMessage_eq m hd⟩, ?_, ?_⟩
  · intro hp
    obtain ⟨m, hm⟩ := Option.ne_none_iff_exists'.mp hp
    exact ⟨fun k v => ⟨_, WithParam_eq k v hd hm⟩, fun params => ⟨_, WithParams_eq params hd hm⟩⟩
  · intro params hlen
    have hr : params.range = [] := by
      cases params with
      | none => rfl
      | some p =>
        have : p.entries = [] := List.length_eq_zero.mp hlen
        simp [GoMap.range, this]
    simp [WithParams, hr, bind, Except.bind, pure, Except.pure]

theorem C10_builders_succeed_witness :
    deref [fieldRequired] (some 0) = .ok fieldRequired ∧
    ((∀ data, ∃ h1, WithData (some 0) data [fieldRequired] = .ok (some 0, h1)) ∧
    (∀ statusCode, ∃ h1, WithStatusCode (some 0) statusCode [fieldRequired] = .ok (some 0, h1)) ∧
    (∀ cause, ∃ h1, WithCause (some 0) cause [fieldRequired] = .ok (some 0, h1)) ∧
    (∀ message, ∃ h1, WithMessage (some 0) message [fieldRequired] = .ok (some 0, h1)) ∧
    (fieldRequired.LocaleParams ≠ none →
      (∀ key value, ∃ h1, WithParam (some 0) key value [fieldRequired] = .ok (some 0, h1)) ∧
      (∀ params, ∃ h1, WithParams (some 0) params [fieldRequired] = .ok (some 0, h1))) ∧
    (∀ params : GoMap, params.len = 0 →
      WithParams (some 0) params [fieldRequired] = .ok (some 0, [fieldRequired]))) :=
  ⟨rfl, C10_builders_succeed (some 0) [fieldRequired] fieldRequired rfl⟩

end Fiberresp
